import Mathlib

/-!
Shallow embedding of the `annotations` package (files `annotations.py` and
`ontology.py`): annotation parsing, matching, collections, and the ontology
variants.  Python strings are modelled as `String`/`List Char`, Python sets
and frozensets of strings as `Finset String`, raised exceptions as
`Except PyErr`.  The Python class `Annotation` is embedded as `Annot`
(the full class name is not usable as a Lean identifier here), and likewise
`AnnotationCollection` as `AnnotCollection`, `OntologyAnnotation` as
`OntologyAnnot`, `OntologyAnnotationCollection` as `OntologyAnnotCollection`.
-/

/-- Exceptions raised by the embedded code: `ValueError` (the code's parse
error), `KeyError` (dict lookup miss), `TypeError` (bad call arity). -/
inductive PyErr where
  | valueError
  | keyError
  | typeError
deriving DecidableEq, Repr

instance {ε α : Type} [DecidableEq ε] [DecidableEq α] : DecidableEq (Except ε α) :=
  fun a b =>
    match a, b with
    | .ok x, .ok y => decidable_of_iff (x = y) (by simp)
    | .error x, .error y => decidable_of_iff (x = y) (by simp)
    | .ok _, .error _ => isFalse (fun h => Except.noConfusion h)
    | .error _, .ok _ => isFalse (fun h => Except.noConfusion h)

/-- Python `str.split(sep)` for a one-character separator `c`:
`"".split(c) = [""]`, and every occurrence of `c` separates (possibly empty)
fields.  Mirrors `m['modifiers'].split(',')` in `Annotation.__init__`. -/
def pySplit (c : Char) : List Char → List (List Char)
  | [] => [[]]
  | a :: rest =>
    if a = c then [] :: pySplit c rest
    else
      match pySplit c rest with
      | r :: rs => (a :: r) :: rs
      | [] => [[a]]

/-- Python `sep.join(l)` for a one-character separator. -/
def pyJoin (c : Char) : List (List Char) → List Char
  | [] => []
  | [x] => x
  | x :: y :: t => x ++ c :: pyJoin c (y :: t)

/-- The class `Annotation`: a term plus a frozenset of modifier strings.
Python `__eq__`/`__hash__` compare exactly the pair `(term, modifiers)`, so
structural equality of this structure is the class's equality. -/
structure Annot where
  term : String
  modifiers : Finset String
deriving DecidableEq

/-- `Annotation.__init__(annotation_string)` for a non-None string.  The
regex `^(?P<term>[^[\]]+)(?:|\[(?P<modifiers>[^\]]+)\])$` matches exactly
when the string is a nonempty bracket-free term, or such a term followed by
`[` + a nonempty `]`-free segment + `]`; the modifier segment is split on
`,` (tokens taken verbatim; `frozenset(sorted(...))` is the set of tokens).
A non-match raises `ValueError`. -/
def Annot.init (s : String) : Except PyErr Annot :=
  let cs := s.data
  let t := cs.takeWhile (fun c => c != '[')
  let rest := cs.dropWhile (fun c => c != '[')
  if t = [] ∨ ']' ∈ t then .error .valueError
  else
    match rest with
    | [] => .ok ⟨⟨t⟩, ∅⟩
    | _ :: rest' =>
      -- `rest`, when nonempty, starts with the first '[' of the string.
      if rest'.getLast? = some ']' ∧ ']' ∉ rest'.dropLast ∧ rest'.dropLast ≠ [] then
        .ok ⟨⟨t⟩, ((pySplit ',' rest'.dropLast).map (fun l => (⟨l⟩ : String))).toFinset⟩
      else .error .valueError

/-- Python `set.isdisjoint`. -/
def fsDisjoint (s t : Finset String) : Bool := s ∩ t = ∅

/-- The modifier logic shared by `Annotation.match` (after the `_match_term`
test): `None` require-modifiers defaults to `self.modifiers`, `None`
exclude-modifiers to the empty set; the match fails iff the require set is
truthy (nonempty) and disjoint from the modifiers, or the exclude set is not
disjoint from the modifiers. -/
def matchCore (mods : Finset String) (req excl : Option (Finset String)) : Bool :=
  let r := req.getD mods
  let e := excl.getD ∅
  if (r ≠ ∅ ∧ fsDisjoint mods r) ∨ ¬ fsDisjoint mods e then false else true

/-- `Annotation.match(term, require_modifiers, exclude_modifiers)`: the base
class's `_match_term` is exact string equality of the terms. -/
def Annot.matchQ (a : Annot) (t : String) (req excl : Option (Finset String)) : Bool :=
  if a.term ≠ t then false else matchCore a.modifiers req excl

/-- The order `sorted` uses on Python strings: lexicographic comparison of
the code-point sequences. -/
def strle (a b : String) : Prop := a.data ≤ b.data

instance : DecidableRel strle := fun a b => inferInstanceAs (Decidable (a.data ≤ b.data))

instance : IsTrans String strle := ⟨fun _ _ _ h1 h2 => le_trans h1 h2⟩

instance : IsAntisymm String strle :=
  ⟨fun a b h1 h2 => by
    cases a
    cases b
    exact congrArg String.mk (le_antisymm h1 h2)⟩

instance : IsTotal String strle := ⟨fun a b => le_total a.data b.data⟩

/-- `Annotation.__repr__`: the term, then — when the modifier set is truthy
(nonempty) — the sorted modifiers joined by commas inside brackets. -/
def Annot.reprS (a : Annot) : String :=
  if a.modifiers = ∅ then a.term
  else a.term ++ "[" ++ (⟨pyJoin ',' ((a.modifiers.sort strle).map String.data)⟩ : String) ++ "]"

/-- The whitespace class of Python's regex `\s` (ASCII part). -/
def pyIsSpace (c : Char) : Bool :=
  c = ' ' ∨ c = '\t' ∨ c = '\n' ∨ c = '\r' ∨ c = Char.ofNat 11 ∨ c = Char.ofNat 12

/-- The negative lookahead `(?![^\[]*\])` of `ANNOT_SPLIT_RE`, evaluated on
the text following a comma (and its consumed whitespace): the regex
`[^\[]*\]` can match there iff a `]` occurs before any `[`, and the comma is
a separator exactly when it cannot. -/
def splitOk (rest : List Char) : Bool :=
  ']' ∉ rest.takeWhile (fun c => c != '[')

/-- `re.split(ANNOT_SPLIT_RE, s)` with `ANNOT_SPLIT_RE = r",\s*(?![^\[]*\])"`:
split at every comma whose following text (after the greedily consumed
whitespace) has no `]` before the next `[`; the consumed whitespace belongs
to the separator.  (The lookahead's outcome is the same at every backtracking
position inside the consumed whitespace, since whitespace characters are
neither `[` nor `]`.)  The Boolean flag carries "currently consuming the
separator's `\s*`" across the recursion, so that the definition is
structural. -/
def annotSplitAux : Bool → List Char → List (List Char)
  | _, [] => [[]]
  | skipWs, a :: rest =>
    if skipWs && pyIsSpace a then annotSplitAux true rest
    else if a = ',' ∧ splitOk (rest.dropWhile pyIsSpace) then
      [] :: annotSplitAux true rest
    else
      match annotSplitAux false rest with
      | r :: rs => (a :: r) :: rs
      | [] => [[a]]

def annotSplit (cs : List Char) : List (List Char) := annotSplitAux false cs

/-- `AnnotationCollection.__init__` with the default `Annotation` factory:
an empty string gives the empty frozenset; otherwise the string is split by
`ANNOT_SPLIT_RE` and each piece parsed as an `Annotation` (a `ValueError`
from any piece propagates).  The collection state is its frozenset of
members. -/
def AnnotCollection.init (s : String) : Except PyErr (Finset Annot) :=
  if s ≠ "" then
    ((annotSplit s.data).mapM (fun seg => Annot.init ⟨seg⟩)).map List.toFinset
  else .ok ∅

/-- Characters that are special in Python regular expressions. -/
def regexMeta : List Char :=
  ['.', '^', '$', '*', '+', '?', '{', '}', '[', ']', '\\', '|', '(', ')']

/-- Whether a pattern string is free of regex metacharacters, i.e. denotes a
literal regular expression. -/
def isRegexLiteral (p : String) : Bool := p.data.all (fun c => c ∉ regexMeta)

/-- Model of Python `re.match(p, s)` (match anchored at the start) for the
metacharacter-free patterns covered here: the match succeeds iff `p` is a
prefix of `s`. -/
def reMatchStart (p s : String) : Bool := p.data.isPrefixOf s.data

/-- `AnnotationCollection.__contains__` against an already-parsed query: the
loop returns true iff some member's term is matched from the start by the
query term compiled as a regex and the member's modifiers are a superset of
the query's. -/
def AnnotCollection.containsQ (C : Finset Annot) (q : Annot) : Bool :=
  decide (∃ m ∈ C, reMatchStart q.term m.term = true ∧ q.modifiers ⊆ m.modifiers)

/-- `AnnotationCollection.__contains__` on a string query: the string is
first parsed as an `Annotation` (a `ValueError` propagates). -/
def AnnotCollection.containsS (C : Finset Annot) (s : String) : Except PyErr Bool :=
  (Annot.init s).map (AnnotCollection.containsQ C)

/-- The class `OntologyEntry`: a name, metadata, and an optional parent
link.  The `children` back-references are write-only in the source (never
read by any matching or lookup code) and are omitted here; the parent chain
carries the whole matching behaviour. -/
inductive OntologyEntry where
  | node (name : String) (synonyms : List String) (comment : Option String)
      (ident : Option String) (goterm : Option String) (examples : List String)
      (parent : Option OntologyEntry)

def OntologyEntry.decEq : (a b : OntologyEntry) → Decidable (a = b)
  | .node n1 s1 c1 i1 g1 e1 p1, .node n2 s2 c2 i2 g2 e2 p2 =>
    have dp : Decidable (p1 = p2) :=
      match p1, p2 with
      | Option.none, Option.none => isTrue rfl
      | Option.some x, Option.some y =>
        match OntologyEntry.decEq x y with
        | isTrue h => isTrue (congrArg Option.some h)
        | isFalse h => isFalse (fun hc => h (Option.some.inj hc))
      | Option.none, Option.some _ => isFalse (fun hc => Option.noConfusion hc)
      | Option.some _, Option.none => isFalse (fun hc => Option.noConfusion hc)
    haveI := dp
    decidable_of_iff (n1 = n2 ∧ s1 = s2 ∧ c1 = c2 ∧ i1 = i2 ∧ g1 = g2 ∧ e1 = e2 ∧ p1 = p2)
      (by rw [OntologyEntry.node.injEq])

instance : DecidableEq OntologyEntry := OntologyEntry.decEq

def OntologyEntry.name : OntologyEntry → String
  | .node n _ _ _ _ _ _ => n

/-- `OntologyEntry.match_term(term, recursive)`: true if `term` equals this
entry's name; otherwise, when `recursive` holds and a parent exists, the
parent is asked with `recursive=True`; otherwise false. -/
def OntologyEntry.match_term : OntologyEntry → String → Bool → Bool
  | .node n _ _ _ _ _ p, term, recursive =>
    if n = term then true
    else if recursive then
      match p with
      | some q => q.match_term term true
      | none => false
    else false

/-- The chain of proper ancestors of an entry, nearest parent first. -/
def OntologyEntry.ancestors : OntologyEntry → List OntologyEntry
  | .node _ _ _ _ _ _ none => []
  | .node _ _ _ _ _ _ (some p) => p :: p.ancestors

/-- The names on an entry's chain: its own name followed by the names of its
proper ancestors. -/
def chainNames (e : OntologyEntry) : List String :=
  e.name :: e.ancestors.map OntologyEntry.name

/-- The class `Ontology`: a list of root entries and a name-to-entry dict
(here an association list in insertion order). -/
structure Ontology where
  root_entries : List OntologyEntry
  entries : List (String × OntologyEntry)
deriving DecidableEq

/-- Python dict indexing `d[q]`: the value stored under a key equal to `q`,
or `None` standing for a raised `KeyError`.  The key comparison is plain
string equality — no normalization of any kind. -/
def dictLookup : List (String × OntologyEntry) → String → Option OntologyEntry
  | [], _ => none
  | (k, v) :: rest, q => if k = q then some v else dictLookup rest q

/-- The class `OntologyAnnotation`: an `Annotation` plus the ontology entry
resolved at construction. -/
structure OntologyAnnot where
  term : String
  modifiers : Finset String
  ontology_entry : OntologyEntry
deriving DecidableEq

/-- `OntologyAnnotation.__init__(annotation_string, ontology)`: parse as a
base `Annotation` (a `ValueError` propagates), then resolve
`ontology.entries[self.term]` (a missing key raises `KeyError`). -/
def OntologyAnnot.init (s : String) (o : Ontology) : Except PyErr OntologyAnnot :=
  match Annot.init s with
  | .error e => .error e
  | .ok a =>
    match dictLookup o.entries a.term with
    | none => .error .keyError
    | some entry => .ok ⟨a.term, a.modifiers, entry⟩

/-- `OntologyAnnotation._match_term` delegates to the resolved entry's
`match_term`; `Annotation.match` then applies the shared modifier logic. -/
def OntologyAnnot.matchQ (a : OntologyAnnot) (t : String)
    (req excl : Option (Finset String)) (recursive : Bool) : Bool :=
  if a.ontology_entry.match_term t recursive = false then false
  else matchCore a.modifiers req excl

/-- Positional argument values occurring at the call sites modelled here. -/
inductive PyVal where
  | pyNone
  | pyStr (s : String)
  | pyOntology (o : Ontology)

/-- Calling the class `OntologyAnnotation` with a list of positional
arguments.  `__init__(self, annotation_string, ontology)` has two required
parameters and no defaults, so any call that does not supply exactly an
annotation string (or `None`) and an ontology raises a `TypeError` before
the body runs.  With `None` and an ontology, the base initializer sets
`term = None`, and `ontology.entries[None]` then raises `KeyError` (the
entry index has only string keys). -/
def OntologyAnnotClassCall (args : List PyVal) : Except PyErr OntologyAnnot :=
  match args with
  | [.pyStr s, .pyOntology o] => OntologyAnnot.init s o
  | [.pyNone, .pyOntology _] => .error .keyError
  | _ => .error .typeError

/-- `Annotation.strip_modifiers` as inherited by `OntologyAnnotation`: the
body first evaluates `self.__class__(None)` — a one-argument call of the
class `OntologyAnnotation` — and only on success copies the term and the
reduced modifier set onto the fresh object. -/
def OntologyAnnot.strip_modifiers (a : OntologyAnnot)
    (mods : Option (Finset String)) : Except PyErr OntologyAnnot :=
  match OntologyAnnotClassCall [PyVal.pyNone] with
  | .error e => .error e
  | .ok fresh =>
    .ok { fresh with
          term := a.term
          modifiers := match mods with
            | Option.none => ∅
            | Option.some m => a.modifiers \ m }

/-- The class `OntologyAnnotationCollection`: the bound ontology plus the
frozenset of members.  `frozenset` deduplicates via the inherited
`Annotation.__eq__`/`__hash__`, which inspect only `(term, modifiers)`, so
the member set is faithfully a `Finset Annot`; each member's ontology entry
is recoverable as `dictLookup ontology.entries term`. -/
structure OntologyAnnotCollection where
  ontology : Ontology
  annots : Finset Annot
deriving DecidableEq

/-- `OntologyAnnotationCollection.__init__(annotations_string, ontology)`:
an empty string gives the empty member set; otherwise each split piece is
parsed by the factory `OntologyAnnotation(a_str, ontology)`, whose errors
propagate. -/
def OntologyAnnotCollection.init (s : String) (o : Ontology) :
    Except PyErr OntologyAnnotCollection :=
  if s ≠ "" then
    ((annotSplit s.data).mapM (fun seg => OntologyAnnot.init ⟨seg⟩ o)).map
      (fun l => ⟨o, (l.map (fun a => (⟨a.term, a.modifiers⟩ : Annot))).toFinset⟩)
  else .ok ⟨o, ∅⟩

/-- `OntologyAnnotationCollection.__or__`: member-set union, repackaged with
the left operand's ontology.  No comparison of the two ontologies occurs. -/
def OntologyAnnotCollection.unionC (A B : OntologyAnnotCollection) :
    OntologyAnnotCollection :=
  ⟨A.ontology, A.annots ∪ B.annots⟩

/-- `OntologyAnnotationCollection.__and__`: member-set intersection,
repackaged with the left operand's ontology.  No comparison of the two
ontologies occurs. -/
def OntologyAnnotCollection.interC (A B : OntologyAnnotCollection) :
    OntologyAnnotCollection :=
  ⟨A.ontology, A.annots ∩ B.annots⟩

/-- Member-set equality of two collections — what `==` compares, since the
inherited set equality is elementwise over `Annotation.__eq__`. -/
def OntologyAnnotCollection.eqC (A B : OntologyAnnotCollection) : Prop :=
  A.annots = B.annots


/-! ### Helper lemmas about the parser's list operations -/

theorem takeWhile_append_mid {p : Char → Bool} (l : List Char) (c : Char) (r : List Char)
    (hl : ∀ a ∈ l, p a = true) (hc : p c = false) :
    (l ++ c :: r).takeWhile p = l := by
  induction l with
  | nil => simp [List.takeWhile_cons, hc]
  | cons a t ih =>
    have ha : p a = true := hl a (by simp)
    simp only [List.cons_append, List.takeWhile_cons, ha, if_true]
    rw [ih (fun b hb => hl b (by simp [hb]))]

theorem dropWhile_append_mid {p : Char → Bool} (l : List Char) (c : Char) (r : List Char)
    (hl : ∀ a ∈ l, p a = true) (hc : p c = false) :
    (l ++ c :: r).dropWhile p = c :: r := by
  induction l with
  | nil => simp [List.dropWhile_cons, hc]
  | cons a t ih =>
    have ha : p a = true := hl a (by simp)
    simp only [List.cons_append, List.dropWhile_cons, ha, if_true]
    exact ih (fun b hb => hl b (by simp [hb]))

theorem takeWhile_all {p : Char → Bool} (l : List Char) (hl : ∀ a ∈ l, p a = true) :
    l.takeWhile p = l := by
  induction l with
  | nil => rfl
  | cons a t ih =>
    simp only [List.takeWhile_cons, hl a (by simp), if_true]
    rw [ih (fun b hb => hl b (by simp [hb]))]

theorem dropWhile_all {p : Char → Bool} (l : List Char) (hl : ∀ a ∈ l, p a = true) :
    l.dropWhile p = [] := by
  induction l with
  | nil => rfl
  | cons a t ih =>
    simp only [List.dropWhile_cons, hl a (by simp), if_true]
    exact ih (fun b hb => hl b (by simp [hb]))

theorem pySplit_not_mem (c : Char) (l : List Char) (h : c ∉ l) : pySplit c l = [l] := by
  induction l with
  | nil => rfl
  | cons a t ih =>
    have ha : a ≠ c := by rintro rfl; exact h (by simp)
    rw [pySplit, if_neg ha, ih (fun hc => h (by simp [hc]))]

theorem pySplit_append (c : Char) (x r : List Char) (hx : c ∉ x) :
    pySplit c (x ++ c :: r) = x :: pySplit c r := by
  induction x with
  | nil => simp [pySplit]
  | cons a t ih =>
    have ha : a ≠ c := by rintro rfl; exact hx (by simp)
    rw [List.cons_append, pySplit, if_neg ha, ih (fun hc => hx (by simp [hc]))]

theorem pySplit_pyJoin (c : Char) (l : List (List Char)) (hne : l ≠ [])
    (h : ∀ x ∈ l, c ∉ x) : pySplit c (pyJoin c l) = l := by
  induction l with
  | nil => exact absurd rfl hne
  | cons x t ih =>
    cases t with
    | nil => exact pySplit_not_mem c x (h x (by simp))
    | cons y t2 =>
      rw [pyJoin, pySplit_append c x _ (h x (by simp))]
      rw [ih (by simp) (fun z hz => h z (by simp [hz]))]

theorem pyJoin_ne_nil (c : Char) (l : List (List Char)) (hne : l ≠ [])
    (h : ∀ x ∈ l, x ≠ []) : pyJoin c l ≠ [] := by
  cases l with
  | nil => exact absurd rfl hne
  | cons x t =>
    cases t with
    | nil => exact h x (by simp)
    | cons y t2 =>
      rw [pyJoin]
      cases x with
      | nil => simp
      | cons a b => simp

theorem not_mem_pyJoin (c d : Char) (l : List (List Char)) (hd : d ≠ c)
    (h : ∀ x ∈ l, d ∉ x) : d ∉ pyJoin c l := by
  induction l with
  | nil => simp [pyJoin]
  | cons x t ih =>
    cases t with
    | nil => exact h x (by simp)
    | cons y t2 =>
      rw [pyJoin]
      intro hmem
      rcases List.mem_append.mp hmem with h1 | h2
      · exact h x (by simp) h1
      · rcases List.mem_cons.mp h2 with h3 | h4
        · exact hd h3
        · exact ih (fun z hz => h z (by simp [hz])) h4

theorem strData_ne_nil (s : String) (h : s ≠ "") : s.data ≠ [] := by
  intro hd
  apply h
  cases s
  simp_all [String.ext_iff]

/-! ### Characterization of `Annot.init` on well-formed inputs -/

theorem annotInit_plain (t : List Char) (h1 : t ≠ []) (h2 : '[' ∉ t) (h3 : ']' ∉ t) :
    Annot.init ⟨t⟩ = .ok ⟨⟨t⟩, ∅⟩ := by
  have hall : ∀ a ∈ t, (a != '[') = true := by
    intro a ha
    simp only [bne_iff_ne, ne_eq]
    rintro rfl
    exact h2 ha
  rw [Annot.init]
  simp only [takeWhile_all t hall, dropWhile_all t hall]
  rw [if_neg (by simp [h1, h3])]

theorem annotInit_bracket (t m : List Char) (h1 : t ≠ []) (h2 : '[' ∉ t) (h3 : ']' ∉ t)
    (h4 : m ≠ []) (h5 : ']' ∉ m) :
    Annot.init ⟨t ++ '[' :: (m ++ [']'])⟩ =
      .ok ⟨⟨t⟩, ((pySplit ',' m).map (fun l => (⟨l⟩ : String))).toFinset⟩ := by
  have hall : ∀ a ∈ t, (a != '[') = true := by
    intro a ha
    simp only [bne_iff_ne, ne_eq]
    rintro rfl
    exact h2 ha
  have hbr : ('[' != '[') = false := by simp
  rw [Annot.init]
  simp only [takeWhile_append_mid t '[' _ hall hbr, dropWhile_append_mid t '[' _ hall hbr]
  rw [if_neg (by simp [h1, h3])]
  simp only [List.getLast?_concat, List.dropLast_concat]
  rw [if_pos ⟨trivial, h5, h4⟩]

theorem strMk_data (s : String) : (⟨s.data⟩ : String) = s := rfl

theorem inter_empty_iff (s t : Finset String) : s ∩ t = ∅ ↔ ∀ x ∈ t, x ∉ s := by
  rw [Finset.eq_empty_iff_forall_not_mem]
  constructor
  · intro h x hx hs
    exact h x (Finset.mem_inter.mpr ⟨hs, hx⟩)
  · intro h x hx
    rcases Finset.mem_inter.mp hx with ⟨hs, ht⟩
    exact h x ht hs

/-! ### The claims -/

/-- C7: parsing `""` into an `AnnotationCollection` yields an empty
collection without raising, while parsing `"a["` (unbalanced bracket) fails
with the parse error, which propagates out of the collection constructor. -/
theorem c7_boundary :
    AnnotCollection.init ("") = .ok (∅ : Finset Annot) ∧
    AnnotCollection.init ("a[") = .error PyErr.valueError := by
  constructor
  · rfl
  · decide

/-- C2 counterexample: the claim says the bracketed tokens are trimmed of
surrounding whitespace, so that `"a[x, y]"` parses to modifiers
`{"x", "y"}`; the code does `m['modifiers'].split(',')` with no strip, so
`"a[x, y]"` actually parses to `{"x", " y"}`, which differs from the claimed
set. -/
theorem c2_cx :
    Annot.init ("a[x, y]") = .ok ⟨"a", {"x", " y"}⟩ ∧
    ({"x", " y"} : Finset String) ≠ ({"x", "y"} : Finset String) := by
  constructor
  · decide
  · decide

/-- C2 (amended): for every annotation string `term[m1,...,mk]` meeting the
grammar (nonempty bracket-free term, nonempty `]`-free modifier segment),
the modifier set consists of the comma-separated tokens taken verbatim —
not trimmed of whitespace, and possibly empty. -/
theorem c2_modifiers_verbatim (t m : String)
    (h1 : t ≠ "") (h2 : '[' ∉ t.data) (h3 : ']' ∉ t.data)
    (h4 : m ≠ "") (h5 : ']' ∉ m.data) :
    Annot.init (t ++ "[" ++ m ++ "]") =
      .ok ⟨t, ((pySplit ',' m.data).map (fun l => (⟨l⟩ : String))).toFinset⟩ := by
  have key := annotInit_bracket t.data m.data (strData_ne_nil t h1) h2 h3
    (strData_ne_nil m h4) h5
  have hdec : (t ++ "[" ++ m ++ "]") = (⟨t.data ++ '[' :: (m.data ++ [']'])⟩ : String) := by
    rw [String.ext_iff]
    simp
  rw [hdec, key, strMk_data]

theorem c2_modifiers_verbatim_witness :
    Annot.init ("a" ++ "[" ++ "x, y" ++ "]") =
      .ok ⟨"a", ((pySplit ',' ("x, y").data).map (fun l => (⟨l⟩ : String))).toFinset⟩ :=
  c2_modifiers_verbatim ("a") ("x, y") (by decide) (by decide) (by decide) (by decide)
    (by decide)

/-! ### `Annotation.match` (C5) -/

theorem matchCore_eq_true (mods : Finset String) (R E : Option (Finset String)) :
    matchCore mods R E = true ↔
      ¬(R.getD mods ≠ ∅ ∧ mods ∩ R.getD mods = ∅) ∧ mods ∩ E.getD ∅ = ∅ := by
  unfold matchCore fsDisjoint
  by_cases h1 : R.getD mods ≠ ∅ ∧ mods ∩ R.getD mods = ∅
  · by_cases h2 : mods ∩ E.getD ∅ = ∅ <;> simp [h1, h2]
  · by_cases h2 : mods ∩ E.getD ∅ = ∅ <;> simp [h1, h2]

theorem exists_mem_iff_inter_ne (r mods : Finset String) :
    (∃ x ∈ r, x ∈ mods) ↔ mods ∩ r ≠ ∅ := by
  rw [Ne, inter_empty_iff]
  push_neg
  constructor
  · rintro ⟨x, h1, h2⟩; exact ⟨x, h1, h2⟩
  · rintro ⟨x, h1, h2⟩; exact ⟨x, h1, h2⟩

theorem matchCore_spec (mods : Finset String) (R E : Option (Finset String)) :
    matchCore mods R E = true ↔
      (∀ r : Finset String, R = some r → r ≠ ∅ → ∃ x ∈ r, x ∈ mods) ∧
      (∀ e : Finset String, E = some e → ∀ x ∈ e, x ∉ mods) := by
  rw [matchCore_eq_true]
  cases R with
  | none =>
    cases E with
    | none =>
      simp [Finset.inter_self, Finset.inter_empty]
    | some e =>
      simp only [Option.getD_none, Option.getD_some]
      constructor
      · rintro ⟨-, h2⟩
        refine ⟨fun r hr => absurd hr (by simp), fun e2 he2 => ?_⟩
        cases he2
        exact (inter_empty_iff _ _).mp h2
      · rintro ⟨-, h2⟩
        refine ⟨?_, (inter_empty_iff _ _).mpr (h2 e rfl)⟩
        rintro ⟨hne, hempty⟩
        rw [Finset.inter_self] at hempty
        exact hne hempty
  | some r =>
    cases E with
    | none =>
      simp only [Option.getD_none, Option.getD_some]
      constructor
      · rintro ⟨h1, -⟩
        refine ⟨fun r2 hr2 hne => ?_, fun e2 he2 => absurd he2 (by simp)⟩
        cases hr2
        rw [exists_mem_iff_inter_ne]
        intro hc
        exact h1 ⟨hne, hc⟩
      · rintro ⟨h1, -⟩
        refine ⟨?_, Finset.inter_empty _⟩
        rintro ⟨hne, hempty⟩
        rcases h1 r rfl hne with ⟨x, hx, hm⟩
        exact (inter_empty_iff _ _).mp hempty x hx hm
    | some e =>
      simp only [Option.getD_some]
      constructor
      · rintro ⟨h1, h2⟩
        refine ⟨fun r2 hr2 hne => ?_, fun e2 he2 => ?_⟩
        · cases hr2
          rw [exists_mem_iff_inter_ne]
          intro hc
          exact h1 ⟨hne, hc⟩
        · cases he2
          exact (inter_empty_iff _ _).mp h2
      · rintro ⟨h1, h2⟩
        refine ⟨?_, (inter_empty_iff _ _).mpr (h2 e rfl)⟩
        rintro ⟨hne, hempty⟩
        rcases h1 r rfl hne with ⟨x, hx, hm⟩
        exact (inter_empty_iff _ _).mp hempty x hx hm

/-- C5: `Annotation.match(t, R, E)` is true iff the term test passes, a
non-empty require set `R` shares at least one element with the annotation's
modifiers (absent or empty `R` imposes nothing), and no element of the
exclude set `E` is among the modifiers; in particular an annotation with
non-empty modifiers and matching term satisfies `match(t, None, None)`. -/
theorem c5_match_modifiers (a : Annot) (t : String) (R E : Option (Finset String)) :
    (Annot.matchQ a t R E = true ↔
      a.term = t ∧
      (∀ r : Finset String, R = some r → r ≠ ∅ → ∃ x ∈ r, x ∈ a.modifiers) ∧
      (∀ e : Finset String, E = some e → ∀ x ∈ e, x ∉ a.modifiers)) ∧
    (a.modifiers ≠ ∅ → a.term = t → Annot.matchQ a t Option.none Option.none = true) := by
  constructor
  · by_cases h : a.term = t
    · simp only [Annot.matchQ, h, ne_eq, not_true_eq_false, if_false]
      simp [matchCore_spec a.modifiers R E, h]
    · simp [Annot.matchQ, h]
  · intro hm ht
    simp only [Annot.matchQ, ht, ne_eq, not_true_eq_false, if_false]
    exact (matchCore_spec a.modifiers Option.none Option.none).mpr ⟨by simp, by simp⟩
theorem c5_match_modifiers_witness :
    Annot.matchQ ⟨"a", {"x"}⟩ ("a") Option.none Option.none = true :=
  (c5_match_modifiers ⟨"a", {"x"}⟩ ("a") Option.none Option.none).2 (by decide) rfl

/-- C6: `AnnotationCollection.__contains__` treats the query term as a
regular expression matched from the start of each member's term (for the
literal patterns modelled here: a prefix test) and requires the member's
modifier set to be a superset of the query's; concretely,
`"a[x]" in AnnotationCollection("a[x,y]")` is true and
`"a[x,y]" in AnnotationCollection("a[x]")` is false. -/
theorem c6_contains_regex :
    (∀ (C : Finset Annot) (q : Annot), isRegexLiteral q.term = true →
      (AnnotCollection.containsQ C q = true ↔
        ∃ m ∈ C, reMatchStart q.term m.term = true ∧ q.modifiers ⊆ m.modifiers)) ∧
    (AnnotCollection.init ("a[x,y]")).bind
      (fun C => AnnotCollection.containsS C ("a[x]")) = .ok true ∧
    (AnnotCollection.init ("a[x]")).bind
      (fun C => AnnotCollection.containsS C ("a[x,y]")) = .ok false := by
  refine ⟨fun C q _ => ?_, by decide, by decide⟩
  simp [AnnotCollection.containsQ]

theorem c6_contains_regex_witness :
    AnnotCollection.containsQ {(⟨"ab", {"x"}⟩ : Annot)} ⟨"a", ∅⟩ = true :=
  (c6_contains_regex.1 {(⟨"ab", {"x"}⟩ : Annot)} ⟨"a", ∅⟩ (by decide)).mpr
    ⟨⟨"ab", {"x"}⟩, by decide, by decide, by decide⟩

/-! ### Ontology lookup (C1) and strip_modifiers (C10) -/

theorem dictLookup_eq_none_iff (d : List (String × OntologyEntry)) (q : String) :
    dictLookup d q = none ↔ ∀ kv ∈ d, kv.1 ≠ q := by
  induction d with
  | nil => simp [dictLookup]
  | cons kv rest ih =>
    obtain ⟨k, v⟩ := kv
    by_cases h : k = q <;> simp [dictLookup, h, ih]

/-- C1 counterexample: in an ontology whose entry index is keyed by
lower-cased names, resolving the term `"Nucleus"` — which differs from the
registered key `"nucleus"` only in letter case — raises `KeyError` even
though an entry under the normalized (lower-cased) name exists, because
`ontology.entries[self.term]` performs no normalization of the queried
name.  The claim says this lookup must succeed. -/
theorem c1_cx :
    (∀ kv ∈ (⟨[OntologyEntry.node ("nucleus") [] Option.none Option.none Option.none []
        Option.none],
      [(("nucleus"), OntologyEntry.node ("nucleus") [] Option.none Option.none Option.none []
        Option.none)]⟩ : Ontology).entries, kv.1.data.map Char.toLower = kv.1.data) ∧
    (∃ kv ∈ (⟨[OntologyEntry.node ("nucleus") [] Option.none Option.none Option.none []
        Option.none],
      [(("nucleus"), OntologyEntry.node ("nucleus") [] Option.none Option.none Option.none []
        Option.none)]⟩ : Ontology).entries,
      kv.1.data = ("Nucleus").data.map Char.toLower) ∧
    OntologyAnnot.init ("Nucleus")
      (⟨[OntologyEntry.node ("nucleus") [] Option.none Option.none Option.none []
        Option.none],
      [(("nucleus"), OntologyEntry.node ("nucleus") [] Option.none Option.none Option.none []
        Option.none)]⟩ : Ontology) = .error PyErr.keyError := by
  decide

/-- C1 (amended): the entry lookup at `OntologyAnnotation` construction is
exact-string (case-sensitive): when the parsed term is stored verbatim as a
key the resolution succeeds with that entry, and whenever no key equals the
term verbatim the construction fails with `KeyError` — even if a key
differing only in case (e.g. the lower-cased term) is present. -/
theorem c1_lookup_exact (o : Ontology) (s : String) (a : Annot)
    (h : Annot.init s = .ok a) :
    (∀ e : OntologyEntry, dictLookup o.entries a.term = some e →
      OntologyAnnot.init s o = .ok ⟨a.term, a.modifiers, e⟩) ∧
    ((∀ kv ∈ o.entries, kv.1 ≠ a.term) →
      OntologyAnnot.init s o = .error PyErr.keyError) := by
  constructor
  · intro e he
    simp only [OntologyAnnot.init, h, he]
  · intro hk
    simp only [OntologyAnnot.init, h, (dictLookup_eq_none_iff _ _).mpr hk]

theorem c1_lookup_exact_witness :
    OntologyAnnot.init ("Nucleus")
      (⟨[OntologyEntry.node ("nucleus") [] Option.none Option.none Option.none []
        Option.none],
      [(("nucleus"), OntologyEntry.node ("nucleus") [] Option.none Option.none Option.none []
        Option.none)]⟩ : Ontology) = .error PyErr.keyError :=
  (c1_lookup_exact _ ("Nucleus") ⟨"Nucleus", ∅⟩ (by decide)).2 (by decide)

/-- C10: `strip_modifiers` on an `OntologyAnnotation` always raises — the
inherited body calls `self.__class__(None)`, a one-argument call of a class
whose `__init__` requires an ontology argument as well, so a `TypeError` is
raised before any stripped copy can be produced, for every receiver and
every argument. -/
theorem c10_strip_unavailable (a : OntologyAnnot) (mods : Option (Finset String)) :
    OntologyAnnot.strip_modifiers a mods = .error PyErr.typeError := rfl

/-! ### Collection set operations (C3, C9) -/

/-- C3 counterexample: union and intersection of two collections bound to
visibly different ontologies do not raise any `ConfigurationError`; they
return merged collections (carrying the left operand's ontology), contrary
to the claimed fail-fast behaviour. -/
theorem c3_cx :
    OntologyAnnotCollection.init ("a")
      (⟨[OntologyEntry.node ("a") [] Option.none Option.none Option.none [] Option.none],
        [(("a"), OntologyEntry.node ("a") [] Option.none Option.none Option.none []
          Option.none)]⟩ : Ontology) =
      .ok ⟨⟨[OntologyEntry.node ("a") [] Option.none Option.none Option.none [] Option.none],
        [(("a"), OntologyEntry.node ("a") [] Option.none Option.none Option.none []
          Option.none)]⟩, {⟨"a", ∅⟩}⟩ ∧
    OntologyAnnotCollection.init ("b")
      (⟨[OntologyEntry.node ("b") [] Option.none Option.none Option.none [] Option.none],
        [(("b"), OntologyEntry.node ("b") [] Option.none Option.none Option.none []
          Option.none)]⟩ : Ontology) =
      .ok ⟨⟨[OntologyEntry.node ("b") [] Option.none Option.none Option.none [] Option.none],
        [(("b"), OntologyEntry.node ("b") [] Option.none Option.none Option.none []
          Option.none)]⟩, {⟨"b", ∅⟩}⟩ ∧
    (⟨[OntologyEntry.node ("a") [] Option.none Option.none Option.none [] Option.none],
        [(("a"), OntologyEntry.node ("a") [] Option.none Option.none Option.none []
          Option.none)]⟩ : Ontology) ≠
      (⟨[OntologyEntry.node ("b") [] Option.none Option.none Option.none [] Option.none],
        [(("b"), OntologyEntry.node ("b") [] Option.none Option.none Option.none []
          Option.none)]⟩ : Ontology) ∧
    OntologyAnnotCollection.unionC
      ⟨⟨[OntologyEntry.node ("a") [] Option.none Option.none Option.none [] Option.none],
        [(("a"), OntologyEntry.node ("a") [] Option.none Option.none Option.none []
          Option.none)]⟩, {⟨"a", ∅⟩}⟩
      ⟨⟨[OntologyEntry.node ("b") [] Option.none Option.none Option.none [] Option.none],
        [(("b"), OntologyEntry.node ("b") [] Option.none Option.none Option.none []
          Option.none)]⟩, {⟨"b", ∅⟩}⟩ =
      ⟨⟨[OntologyEntry.node ("a") [] Option.none Option.none Option.none [] Option.none],
        [(("a"), OntologyEntry.node ("a") [] Option.none Option.none Option.none []
          Option.none)]⟩, {⟨"a", ∅⟩, ⟨"b", ∅⟩}⟩ ∧
    OntologyAnnotCollection.interC
      ⟨⟨[OntologyEntry.node ("a") [] Option.none Option.none Option.none [] Option.none],
        [(("a"), OntologyEntry.node ("a") [] Option.none Option.none Option.none []
          Option.none)]⟩, {⟨"a", ∅⟩}⟩
      ⟨⟨[OntologyEntry.node ("b") [] Option.none Option.none Option.none [] Option.none],
        [(("b"), OntologyEntry.node ("b") [] Option.none Option.none Option.none []
          Option.none)]⟩, {⟨"b", ∅⟩}⟩ =
      ⟨⟨[OntologyEntry.node ("a") [] Option.none Option.none Option.none [] Option.none],
        [(("a"), OntologyEntry.node ("a") [] Option.none Option.none Option.none []
          Option.none)]⟩, ∅⟩ := by
  refine ⟨by decide, by decide, by decide, by decide, by decide⟩

/-- C3 (amended): `__or__`/`__and__` never compare the two ontologies and
never raise a `ConfigurationError`; even for operands bound to different
ontology instances they silently return a merged collection whose member
set is the union (resp. intersection) of the operands' member sets and
whose ontology is the left operand's. -/
theorem c3_silent_merge (A B : OntologyAnnotCollection)
    (_h : A.ontology ≠ B.ontology) :
    (OntologyAnnotCollection.unionC A B).annots = A.annots ∪ B.annots ∧
    (OntologyAnnotCollection.unionC A B).ontology = A.ontology ∧
    (OntologyAnnotCollection.interC A B).annots = A.annots ∩ B.annots ∧
    (OntologyAnnotCollection.interC A B).ontology = A.ontology :=
  ⟨rfl, rfl, rfl, rfl⟩

theorem c3_silent_merge_witness :
    (OntologyAnnotCollection.unionC
      ⟨⟨[], [(("a"), OntologyEntry.node ("a") [] Option.none Option.none Option.none []
        Option.none)]⟩, {⟨"a", ∅⟩}⟩
      ⟨⟨[], []⟩, {⟨"b", ∅⟩}⟩).annots = {⟨"a", ∅⟩} ∪ {⟨"b", ∅⟩} ∧
    (OntologyAnnotCollection.unionC
      ⟨⟨[], [(("a"), OntologyEntry.node ("a") [] Option.none Option.none Option.none []
        Option.none)]⟩, {⟨"a", ∅⟩}⟩
      ⟨⟨[], []⟩, {⟨"b", ∅⟩}⟩).ontology =
      (⟨[], [(("a"), OntologyEntry.node ("a") [] Option.none Option.none Option.none []
        Option.none)]⟩ : Ontology) ∧
    (OntologyAnnotCollection.interC
      ⟨⟨[], [(("a"), OntologyEntry.node ("a") [] Option.none Option.none Option.none []
        Option.none)]⟩, {⟨"a", ∅⟩}⟩
      ⟨⟨[], []⟩, {⟨"b", ∅⟩}⟩).annots = {⟨"a", ∅⟩} ∩ {⟨"b", ∅⟩} ∧
    (OntologyAnnotCollection.interC
      ⟨⟨[], [(("a"), OntologyEntry.node ("a") [] Option.none Option.none Option.none []
        Option.none)]⟩, {⟨"a", ∅⟩}⟩
      ⟨⟨[], []⟩, {⟨"b", ∅⟩}⟩).ontology =
      (⟨[], [(("a"), OntologyEntry.node ("a") [] Option.none Option.none Option.none []
        Option.none)]⟩ : Ontology) :=
  c3_silent_merge _ _ (by decide)

/-- C9: for collections bound to the same ontology, union and intersection
satisfy the set laws under member-set equality: commutativity,
associativity, and idempotence. -/
theorem c9_set_laws (A B C : OntologyAnnotCollection)
    (_hAB : A.ontology = B.ontology) (_hAC : A.ontology = C.ontology) :
    OntologyAnnotCollection.eqC (OntologyAnnotCollection.unionC A B)
      (OntologyAnnotCollection.unionC B A) ∧
    OntologyAnnotCollection.eqC (OntologyAnnotCollection.interC A B)
      (OntologyAnnotCollection.interC B A) ∧
    OntologyAnnotCollection.eqC
      (OntologyAnnotCollection.unionC (OntologyAnnotCollection.unionC A B) C)
      (OntologyAnnotCollection.unionC A (OntologyAnnotCollection.unionC B C)) ∧
    OntologyAnnotCollection.eqC
      (OntologyAnnotCollection.interC (OntologyAnnotCollection.interC A B) C)
      (OntologyAnnotCollection.interC A (OntologyAnnotCollection.interC B C)) ∧
    OntologyAnnotCollection.eqC (OntologyAnnotCollection.unionC A A) A ∧
    OntologyAnnotCollection.eqC (OntologyAnnotCollection.interC A A) A :=
  ⟨Finset.union_comm _ _, Finset.inter_comm _ _, Finset.union_assoc _ _ _,
    Finset.inter_assoc _ _ _, Finset.union_self _, Finset.inter_self _⟩

theorem c9_set_laws_witness :
    OntologyAnnotCollection.eqC
      (OntologyAnnotCollection.unionC ⟨⟨[], []⟩, {⟨"a", ∅⟩}⟩ ⟨⟨[], []⟩, {⟨"b", ∅⟩}⟩)
      (OntologyAnnotCollection.unionC ⟨⟨[], []⟩, {⟨"b", ∅⟩}⟩ ⟨⟨[], []⟩, {⟨"a", ∅⟩}⟩) :=
  (c9_set_laws ⟨⟨[], []⟩, {⟨"a", ∅⟩}⟩ ⟨⟨[], []⟩, {⟨"b", ∅⟩}⟩ ⟨⟨[], []⟩, ∅⟩ rfl rfl).1

/-! ### Hierarchical ontology matching (C4) -/

theorem chainNames_eq (n : String) (s : List String) (c i g : Option String)
    (ex : List String) (p : OntologyEntry) :
    chainNames (.node n s c i g ex (Option.some p)) = n :: chainNames p := by
  simp [chainNames, OntologyEntry.ancestors, OntologyEntry.name]

theorem match_term_iff : ∀ (e : OntologyEntry) (t : String),
    e.match_term t true = true ↔ t ∈ chainNames e
  | .node n s c i g ex Option.none, t => by
    rw [OntologyEntry.match_term]
    by_cases h : n = t
    · subst h
      simp [chainNames, OntologyEntry.ancestors, OntologyEntry.name]
    · have hne : t ≠ n := fun hh => h hh.symm
      simp [h, hne, chainNames, OntologyEntry.ancestors, OntologyEntry.name]
  | .node n s c i g ex (Option.some p), t => by
    have ih := match_term_iff p t
    rw [OntologyEntry.match_term, chainNames_eq]
    by_cases h : n = t
    · subst h
      simp
    · have hne : t ≠ n := fun hh => h hh.symm
      simp [h, hne, ih]

theorem chain_suffix : ∀ (Y X : OntologyEntry), X ∈ Y.ancestors →
    X :: X.ancestors <:+ Y.ancestors
  | .node n s c i g ex Option.none, X, h => by
    simp [OntologyEntry.ancestors] at h
  | .node n s c i g ex (Option.some p), X, h => by
    rw [OntologyEntry.ancestors] at h ⊢
    rcases List.mem_cons.mp h with rfl | h2
    · exact List.suffix_refl _
    · exact (chain_suffix p X h2).trans (List.suffix_cons p p.ancestors)

/-- C4: hierarchical term matching is upward-only — for an ontology with
unique entry names in which `X` is a proper ancestor of `Y`, an
`OntologyAnnotation` resolved to `Y` satisfies `match(X.name)` with
`recursive=True` (the walk reaches `X` through the parent chain), while an
annotation resolved to `X` does not satisfy `match(Y.name)` (the walk never
descends into children). -/
theorem c4_hierarchical_upward (X Y : OntologyEntry) (mods : Finset String)
    (hnd : (chainNames Y).Nodup) (hanc : X ∈ Y.ancestors) :
    OntologyAnnot.matchQ ⟨Y.name, mods, Y⟩ X.name Option.none Option.none true = true ∧
    OntologyAnnot.matchQ ⟨X.name, mods, X⟩ Y.name Option.none Option.none true = false := by
  have hcore : matchCore mods Option.none Option.none = true :=
    (matchCore_spec mods _ _).mpr ⟨by simp, by simp⟩
  constructor
  · have hmem : X.name ∈ chainNames Y :=
      List.mem_cons_of_mem _ (List.mem_map_of_mem OntologyEntry.name hanc)
    have hmt := (match_term_iff Y X.name).mpr hmem
    simp [OntologyAnnot.matchQ, hmt, hcore]
  · have hnot : Y.name ∉ chainNames X := by
      intro hmem
      have hsuf : X :: X.ancestors <:+ Y.ancestors := chain_suffix Y X hanc
      have hsub : List.Sublist (chainNames X) (Y.ancestors.map OntologyEntry.name) := by
        have hmap := (List.IsSuffix.sublist hsuf).map OntologyEntry.name
        simpa [chainNames] using hmap
      have hin : Y.name ∈ Y.ancestors.map OntologyEntry.name := hsub.subset hmem
      rcases List.nodup_cons.mp hnd with ⟨hnotin, -⟩
      exact hnotin hin
    have hfalse : X.match_term Y.name true = false := by
      by_cases hb : X.match_term Y.name true = true
      · exact absurd ((match_term_iff X Y.name).mp hb) hnot
      · simpa using hb
    simp [OntologyAnnot.matchQ, hfalse]

theorem c4_hierarchical_upward_witness :
    OntologyAnnot.matchQ
      ⟨(OntologyEntry.node ("nucleoplasm") [] Option.none Option.none Option.none []
        (Option.some (OntologyEntry.node ("nucleus") [] Option.none Option.none Option.none []
          Option.none))).name, ∅,
        OntologyEntry.node ("nucleoplasm") [] Option.none Option.none Option.none []
        (Option.some (OntologyEntry.node ("nucleus") [] Option.none Option.none Option.none []
          Option.none))⟩
      (OntologyEntry.node ("nucleus") [] Option.none Option.none Option.none [] Option.none).name
      Option.none Option.none true = true ∧
    OntologyAnnot.matchQ
      ⟨(OntologyEntry.node ("nucleus") [] Option.none Option.none Option.none [] Option.none).name, ∅,
        OntologyEntry.node ("nucleus") [] Option.none Option.none Option.none [] Option.none⟩
      (OntologyEntry.node ("nucleoplasm") [] Option.none Option.none Option.none []
        (Option.some (OntologyEntry.node ("nucleus") [] Option.none Option.none Option.none []
          Option.none))).name
      Option.none Option.none true = false :=
  c4_hierarchical_upward
    (OntologyEntry.node ("nucleus") [] Option.none Option.none Option.none [] Option.none)
    (OntologyEntry.node ("nucleoplasm") [] Option.none Option.none Option.none []
        (Option.some (OntologyEntry.node ("nucleus") [] Option.none Option.none Option.none []
          Option.none)))
    ∅ (by decide) (by decide)

/-! ### Render / re-parse round trip (C8) -/

/-- C8 counterexample: the annotation parsed from `"a[,]"` has term `"a"`
and modifier set `{""}` — its term and its sole modifier contain none of
`[`, `]`, `,` — yet rendering it gives `"a[]"`, whose re-parse fails with
the parse error instead of returning an equal annotation.  The claimed
round-trip therefore fails for this annotation. -/
theorem c8_cx :
    Annot.init ("a[,]") = .ok ⟨"a", {""}⟩ ∧
    Annot.reprS ⟨"a", {""}⟩ = ("a[]") ∧
    Annot.init (Annot.reprS ⟨"a", {""}⟩) = .error PyErr.valueError := by
  have hrepr : Annot.reprS ⟨"a", {""}⟩ = ("a[]") := by
    rw [Annot.reprS, if_neg (by decide)]
    rw [show ((⟨"a", {""}⟩ : Annot).modifiers.sort strle) = [""] from
      Finset.sort_singleton strle ""]
    decide
  refine ⟨by decide, hrepr, ?_⟩
  rw [hrepr]
  decide

/-- C8 (amended): for every annotation whose term is non-empty and contains
none of `[`, `]`, `,`, and whose modifiers are each non-empty and contain
none of `[`, `]`, `,`, rendering to the canonical string (term, then the
sorted modifiers bracketed when non-empty) and re-parsing yields an equal
annotation — equal term and equal modifier set, independent of modifier
order. -/
theorem c8_roundtrip (a : Annot)
    (ht1 : a.term ≠ "")
    (ht2 : ∀ c ∈ a.term.data, c ≠ '[' ∧ c ≠ ']' ∧ c ≠ ',')
    (hm : ∀ m ∈ a.modifiers, m ≠ "" ∧ ∀ c ∈ m.data, c ≠ '[' ∧ c ≠ ']' ∧ c ≠ ',') :
    Annot.init a.reprS = .ok a := by
  obtain ⟨tm, mo⟩ := a
  simp only at ht1 ht2 hm
  by_cases hmod : mo = ∅
  · subst hmod
    rw [Annot.reprS, if_pos rfl]
    have hp := annotInit_plain tm.data (strData_ne_nil _ ht1)
      (fun hc => (ht2 _ hc).1 rfl) (fun hc => (ht2 _ hc).2.1 rfl)
    simpa [strMk_data] using hp
  · rw [Annot.reprS, if_neg hmod]
    simp only
    have hLne : Finset.sort strle mo ≠ [] := by
      intro h0
      apply hmod
      rw [← Finset.sort_toFinset strle mo, h0]
      rfl
    have hLmem : ∀ x ∈ Finset.sort strle mo, x ∈ mo :=
      fun x hx => (Finset.mem_sort strle).mp hx
    have hmapne : (Finset.sort strle mo).map String.data ≠ [] := by
      intro h0
      exact hLne (List.map_eq_nil_iff.mp h0)
    have helems : ∀ x ∈ (Finset.sort strle mo).map String.data, x ≠ [] := by
      intro x hx
      rcases List.mem_map.mp hx with ⟨m0, hm0, rfl⟩
      exact strData_ne_nil m0 (hm m0 (hLmem m0 hm0)).1
    have hJne : pyJoin ',' ((Finset.sort strle mo).map String.data) ≠ [] :=
      pyJoin_ne_nil ',' _ hmapne helems
    have hJbr : ']' ∉ pyJoin ',' ((Finset.sort strle mo).map String.data) := by
      apply not_mem_pyJoin ',' ']' _ (by decide)
      intro x hx
      rcases List.mem_map.mp hx with ⟨m0, hm0, rfl⟩
      intro hc
      exact ((hm m0 (hLmem m0 hm0)).2 ']' hc).2.1 rfl
    have hJcomma : ∀ x ∈ (Finset.sort strle mo).map String.data, ',' ∉ x := by
      intro x hx
      rcases List.mem_map.mp hx with ⟨m0, hm0, rfl⟩
      intro hc
      exact ((hm m0 (hLmem m0 hm0)).2 ',' hc).2.2 rfl
    have hstr : tm ++ "[" ++
        (⟨pyJoin ',' ((Finset.sort strle mo).map String.data)⟩ : String) ++ "]" =
        (⟨tm.data ++ '[' ::
          (pyJoin ',' ((Finset.sort strle mo).map String.data) ++ [']'])⟩ : String) := by
      rw [String.ext_iff]
      simp
    rw [hstr]
    rw [annotInit_bracket tm.data _ (strData_ne_nil _ ht1)
      (fun hc => (ht2 _ hc).1 rfl) (fun hc => (ht2 _ hc).2.1 rfl) hJne hJbr]
    rw [pySplit_pyJoin ',' _ hmapne hJcomma]
    rw [List.map_map]
    have hid : ((fun l => (⟨l⟩ : String)) ∘ String.data) = id := by
      funext s0
      exact strMk_data s0
    rw [hid, List.map_id, strMk_data]
    rw [Finset.sort_toFinset strle mo]

theorem c8_roundtrip_witness :
    Annot.init (Annot.reprS ⟨"a", {"y", "x"}⟩) = .ok ⟨"a", {"y", "x"}⟩ :=
  c8_roundtrip ⟨"a", {"y", "x"}⟩ (by decide) (by decide) (by decide)
